import Mathlib

/-!
# Syncline: verification of the synchronization core against its specification

This development gives a shallow embedding of the syncline repository's
synchronization core and settles the specification's claims about it.

* Wire codec (`src/syncline/src/protocol.rs` and
  `src/client_folder/src/protocol.rs`): byte strings are `List Nat` (each
  entry one byte), a frame is `msg_type :: big-endian u16 length :: doc_id
  bytes :: payload`.  The UTF-8 validity check performed by Rust's
  `std::str::from_utf8` is mirrored by the executable `isValidUtf8`.
* Diff application (`src/client_folder/src/diff.rs`): the yrs text is a
  `List Char`; `insert`/`remove_range` take byte offsets and are partial
  (`Option`), returning `none` exactly when the offset or length does not
  fall on a character boundary inside the current content — the situations
  in which the yrs library panics.
* The yrs document library is external to the repository; it is embedded at
  its boundary as a `YrsModel` record (fresh document, `decode_v1`,
  `apply_update` inside a transaction, `encode_state_as_update_v1`,
  `get_string`), and the spec's boundary laws appear as explicit hypotheses
  where a claim needs them.
-/

/-! ## Wire codec: `src/syncline/src/protocol.rs` -/

/-- Continuation byte test of the UTF-8 validator: `0x80 ≤ b ≤ 0xBF`. -/
def isCont (b : Nat) : Bool :=
  decide (0x80 ≤ b) && decide (b ≤ 0xBF)

/-- Executable mirror of the validity check done by Rust's
`std::str::from_utf8` (same accepted set: no overlong forms, no surrogates,
no code points above `U+10FFFF`). -/
def isValidUtf8 : List Nat → Bool
  | [] => true
  | b :: rest =>
    if b ≤ 0x7F then isValidUtf8 rest
    else if decide (0xC2 ≤ b) && decide (b ≤ 0xDF) then
      match rest with
      | b1 :: rest2 => isCont b1 && isValidUtf8 rest2
      | [] => false
    else if b = 0xE0 then
      match rest with
      | b1 :: b2 :: rest2 =>
        (decide (0xA0 ≤ b1) && decide (b1 ≤ 0xBF)) && isCont b2 && isValidUtf8 rest2
      | _ => false
    else if decide (0xE1 ≤ b) && decide (b ≤ 0xEC) then
      match rest with
      | b1 :: b2 :: rest2 => isCont b1 && isCont b2 && isValidUtf8 rest2
      | _ => false
    else if b = 0xED then
      match rest with
      | b1 :: b2 :: rest2 =>
        (decide (0x80 ≤ b1) && decide (b1 ≤ 0x9F)) && isCont b2 && isValidUtf8 rest2
      | _ => false
    else if decide (0xEE ≤ b) && decide (b ≤ 0xEF) then
      match rest with
      | b1 :: b2 :: rest2 => isCont b1 && isCont b2 && isValidUtf8 rest2
      | _ => false
    else if b = 0xF0 then
      match rest with
      | b1 :: b2 :: b3 :: rest2 =>
        (decide (0x90 ≤ b1) && decide (b1 ≤ 0xBF)) && isCont b2 && isCont b3 &&
          isValidUtf8 rest2
      | _ => false
    else if decide (0xF1 ≤ b) && decide (b ≤ 0xF3) then
      match rest with
      | b1 :: b2 :: b3 :: rest2 => isCont b1 && isCont b2 && isCont b3 && isValidUtf8 rest2
      | _ => false
    else if b = 0xF4 then
      match rest with
      | b1 :: b2 :: b3 :: rest2 =>
        (decide (0x80 ≤ b1) && decide (b1 ≤ 0x8F)) && isCont b2 && isCont b3 &&
          isValidUtf8 rest2
      | _ => false
    else false

/-- Big-endian bytes of a length cast to `u16`, as in
`(doc_id_bytes.len() as u16).to_be_bytes()`. -/
def u16be (n : Nat) : List Nat :=
  [n % 65536 / 256, n % 256]

/-- Mirror of `encode_message` (`src/syncline/src/protocol.rs:5`): one
`msg_type` byte, the doc id length as a big-endian `u16` (the `as u16` cast
reduces the length modulo `2 ^ 16`), the doc id bytes, then the payload. -/
def encode_message (msg_type : Nat) (doc_id : List Nat) (payload : List Nat) : List Nat :=
  msg_type % 256 :: u16be doc_id.length ++ doc_id ++ payload

/-- Mirror of `decode_message` (`src/syncline/src/protocol.rs:15`): fails on
frames shorter than 3 bytes, on a declared doc id length exceeding the
remainder, and on doc id bytes that are not valid UTF-8; any `msg_type`
byte is accepted. -/
def decode_message (data : List Nat) : Option (Nat × List Nat × List Nat) :=
  match data with
  | msg_type :: b1 :: b2 :: rest =>
    let doc_id_len := b1 * 256 + b2
    if rest.length < doc_id_len then none
    else
      let doc_id := rest.take doc_id_len
      if isValidUtf8 doc_id then some (msg_type, doc_id, rest.drop doc_id_len)
      else none
  | _ => none

/-- Mirror of `Message::decode` (`src/client_folder/src/protocol.rs:52`).
Unlike `decode_message`, `MsgType::try_from` rejects any `msg_type` byte
other than 0, 1, 2 before the doc id is examined. -/
def message_decode (buf : List Nat) : Option (Nat × List Nat × List Nat) :=
  match buf with
  | msg_type :: b1 :: b2 :: rest =>
    if 3 ≤ msg_type then none
    else
      let doc_id_len := b1 * 256 + b2
      if rest.length < doc_id_len then none
      else
        let doc_id := rest.take doc_id_len
        if isValidUtf8 doc_id then some (msg_type, doc_id, rest.drop doc_id_len)
        else none
  | _ => none

/-- Declared doc id length of a frame: bytes 1 and 2 read big-endian. -/
def declared_len (data : List Nat) : Nat :=
  data.getD 1 0 * 256 + data.getD 2 0

/-- Doc id bytes a frame declares: the slice the declared length selects. -/
def declared_doc_id (data : List Nat) : List Nat :=
  (data.drop 3).take (declared_len data)

lemma take_append_self {α : Type} (a b : List α) : (a ++ b).take a.length = a := by
  induction a with
  | nil => rfl
  | cons x xs ih => simp [List.take, ih]

lemma drop_append_self {α : Type} (a b : List α) : (a ++ b).drop a.length = b := by
  induction a with
  | nil => rfl
  | cons x xs ih => simp [List.drop, ih]

/-- C2: for every msg_type byte `t`, every valid-UTF-8 doc id `d` of at most
65535 bytes and every payload `p`, decoding the encoding of `(t, d, p)`
returns exactly `(t, d, p)`. -/
theorem encode_decode_roundtrip (t : Nat) (d p : List Nat)
    (ht : t < 256) (hd : d.length ≤ 65535) (hv : isValidUtf8 d = true) :
    decode_message (encode_message t d p) = some (t, d, p) := by
  have hmod : t % 256 = t := Nat.mod_eq_of_lt ht
  have hlen : d.length % 65536 / 256 * 256 + d.length % 256 = d.length := by omega
  simp only [encode_message, u16be, List.cons_append, List.nil_append, decode_message, hmod,
    hlen]
  have hnotlt : ¬ (d ++ p).length < d.length := by
    simp [List.length_append]
  rw [if_neg hnotlt, take_append_self, drop_append_self, hv]
  simp

/-- Witness for C2 at a concrete frame: `t = 2`, `d = "hi"`, `p = [9, 9]`. -/
theorem encode_decode_roundtrip_witness :
    (2 < 256 ∧ ([104, 105] : List Nat).length ≤ 65535 ∧ isValidUtf8 [104, 105] = true) ∧
      decode_message (encode_message 2 [104, 105] [9, 9]) = some (2, [104, 105], [9, 9]) :=
  ⟨⟨by decide, by decide, by decide⟩,
    encode_decode_roundtrip 2 [104, 105] [9, 9] (by decide) (by decide) (by decide)⟩

/-- C7 counterexample: the input `[3, 0, 0]` is at least 3 bytes long, its
declared doc id length (0) does not exceed the remaining bytes, and its doc
id bytes (the empty string) are valid UTF-8 — yet `Message::decode` of
`src/client_folder/src/protocol.rs` rejects it, because `MsgType::try_from`
fails on the msg_type byte 3.  So the three listed conditions do not
characterize decode failure for that decoder. -/
theorem message_decode_rejects_unknown_msg_type :
    message_decode [3, 0, 0] = none ∧
      3 ≤ ([3, 0, 0] : List Nat).length ∧
      declared_len [3, 0, 0] = 0 ∧
      ([3, 0, 0] : List Nat).length ≥ 3 + declared_len [3, 0, 0] ∧
      isValidUtf8 (declared_doc_id [3, 0, 0]) = true := by
  refine ⟨rfl, by decide, by decide, by decide, by decide⟩

/-- C7 (amended): for `decode_message` of `src/syncline/src/protocol.rs` the
three conditions — input shorter than 3 bytes, declared doc id length
exceeding the remaining bytes, doc id bytes not valid UTF-8 — exactly
characterize decode failure (in particular no msg_type byte value causes a
failure), while `Message::decode` of `src/client_folder/src/protocol.rs`
additionally fails whenever the msg_type byte is not 0, 1 or 2. -/
theorem decode_failure_characterization (data : List Nat) :
    (decode_message data = none ↔
      data.length < 3 ∨ data.length < 3 + declared_len data ∨
        isValidUtf8 (declared_doc_id data) = false) ∧
    (message_decode data = none ↔
      data.length < 3 ∨ 3 ≤ data.getD 0 0 ∨ data.length < 3 + declared_len data ∨
        isValidUtf8 (declared_doc_id data) = false) := by
  match data with
  | [] => simp [decode_message, message_decode, declared_len, declared_doc_id]
  | [a] => simp [decode_message, message_decode, declared_len, declared_doc_id]
  | [a, b] => simp [decode_message, message_decode, declared_len, declared_doc_id]
  | t :: b1 :: b2 :: rest =>
    have hdl : declared_len (t :: b1 :: b2 :: rest) = b1 * 256 + b2 := by
      simp [declared_len]
    have hdoc : declared_doc_id (t :: b1 :: b2 :: rest) = rest.take (b1 * 256 + b2) := by
      simp [declared_doc_id, hdl]
    have hlen : (t :: b1 :: b2 :: rest).length = 3 + rest.length := by
      simp; omega
    constructor
    · simp only [decode_message, hdl, hdoc, hlen]
      split
      · -- declared length exceeds the remaining bytes
        rename_i hlt
        simp; omega
      · rename_i hge
        split
        · rename_i hvalid
          simp [hvalid]
          omega
        · rename_i hinvalid
          simp only [eq_self_iff_true, true_iff]
          right; right
          simpa using hinvalid
    · simp only [message_decode, hdl, hdoc, hlen, List.getD]
      split
      · -- msg_type byte rejected by MsgType::try_from
        rename_i hty
        simp only [eq_self_iff_true, true_iff]
        right; left
        simpa using hty
      · rename_i hty
        split
        · rename_i hlt
          simp; omega
        · rename_i hge
          split
          · rename_i hvalid
            simp [hvalid]
            exact ⟨by omega, by omega⟩
          · rename_i hinvalid
            simp only [eq_self_iff_true, true_iff]
            right; right; right
            simpa using hinvalid

/-- C9: when the doc id is longer than 65535 bytes, `encode_message` still
produces a frame of the expected total size, but the `as u16` cast makes the
declared length the true length modulo 65536, which disagrees with the
actual length — and decoding the frame can never return the original
triple. -/
theorem encode_overflow_corrupts (t : Nat) (d p : List Nat)
    (h : d.length > 65535) :
    (encode_message t d p).length = 3 + d.length + p.length ∧
      declared_len (encode_message t d p) = d.length % 65536 ∧
      d.length % 65536 ≠ d.length ∧
      decode_message (encode_message t d p) ≠ some (t, d, p) := by
  have hne : d.length % 65536 ≠ d.length := by omega
  refine ⟨?_, ?_, hne, ?_⟩
  · simp [encode_message, u16be]
    omega
  · simp [encode_message, u16be, declared_len]
    omega
  · simp only [encode_message, u16be, List.cons_append, List.nil_append, decode_message]
    have hmod : d.length % 65536 / 256 * 256 + d.length % 256 = d.length % 65536 := by
      omega
    rw [hmod]
    split
    · simp
    · rename_i hge
      split
      · rename_i hvalid
        intro hcontra
        have hd2 : ((d ++ p).take (d.length % 65536)) = d := by
          have := congrArg (fun x => x.2.1) (Option.some.inj hcontra)
          simpa using this
        have : ((d ++ p).take (d.length % 65536)).length = d.length % 65536 := by
          rw [List.length_take]
          simp only [List.length_append]
          omega
        rw [hd2] at this
        exact hne this.symm
      · simp

/-- Witness for C9: a doc id of 65536 identical ASCII bytes overflows the
`u16` length field. -/
theorem encode_overflow_corrupts_witness :
    (List.replicate 65536 97 : List Nat).length > 65535 ∧
      ((encode_message 2 (List.replicate 65536 97) []).length =
          3 + (List.replicate 65536 97 : List Nat).length + ([] : List Nat).length ∧
        declared_len (encode_message 2 (List.replicate 65536 97) []) =
          (List.replicate 65536 97 : List Nat).length % 65536 ∧
        (List.replicate 65536 97 : List Nat).length % 65536 ≠
          (List.replicate 65536 97 : List Nat).length ∧
        decode_message (encode_message 2 (List.replicate 65536 97) []) ≠
          some (2, List.replicate 65536 97, [])) :=
  ⟨by rw [List.length_replicate]; omega,
    encode_overflow_corrupts 2 (List.replicate 65536 97) []
      (by rw [List.length_replicate]; omega)⟩

/-! ## Diff application: `src/client_folder/src/diff.rs`

The yrs text content is a sequence of characters; `insert` and
`remove_range` address it by UTF-8 byte offsets (the crate is built with the
default byte offset kind, and the source's regression test
`test_issue_4_apply_diff_unicode` documents that offsets are byte counts).
Both operations are partial: they succeed only when the offset (and, for
removal, the removed span) falls on character boundaries inside the current
content.  `none` models the panic of the yrs library on an out-of-range or
mid-character index. -/

/-- Byte size of one character in UTF-8, the value of `change.value().len()`
for a one-character change. -/
def csize (c : Char) : Nat := c.utf8Size

/-- UTF-8 byte length of a text, the value of Rust's `str::len`. -/
def utf8Len (s : List Char) : Nat := (s.map csize).sum

/-- Boundary model of `TextRef::insert(txn, k, s)`: split the content at
byte offset `k` and splice in `s`; `none` when `k` is beyond the end or
inside a character (where yrs panics). -/
def insertAt (content : List Char) (k : Nat) (s : List Char) : Option (List Char) :=
  if k = 0 then some (s ++ content)
  else
    match content with
    | [] => none
    | c :: rest =>
      if csize c ≤ k then (insertAt rest (k - csize c) s).map (fun l => c :: l) else none

/-- Removal of `len` bytes from the front of the content; `none` when `len`
overruns the content or stops inside a character. -/
def removePrefix (content : List Char) (len : Nat) : Option (List Char) :=
  if len = 0 then some content
  else
    match content with
    | [] => none
    | c :: rest => if csize c ≤ len then removePrefix rest (len - csize c) else none

/-- Boundary model of `TextRef::remove_range(txn, k, len)`: drop `len` bytes
starting at byte offset `k`; `none` when either end of the span is out of
range or inside a character (where yrs panics). -/
def removeRange (content : List Char) (k : Nat) (len : Nat) : Option (List Char) :=
  if k = 0 then removePrefix content len
  else
    match content with
    | [] => none
    | c :: rest =>
      if csize c ≤ k then (removeRange rest (k - csize c) len).map (fun l => c :: l)
      else none

/-- One entry of `diff.iter_all_changes()` for a character-level diff
(`TextDiff::from_chars`): each change carries a single character and is
tagged `Equal`, `Delete` or `Insert`. -/
inductive Change : Type
  | equal (c : Char) : Change
  | delete (c : Char) : Change
  | insert (c : Char) : Change

/-- Old-side projection of a diff: the `Equal` and `Delete` characters in
order.  A diff produced from `(old, new)` projects to `old`. -/
def diffOld : List Change → List Char
  | [] => []
  | Change.equal c :: ds => c :: diffOld ds
  | Change.delete c :: ds => c :: diffOld ds
  | Change.insert _ :: ds => diffOld ds

/-- New-side projection of a diff: the `Equal` and `Insert` characters in
order.  A diff produced from `(old, new)` projects to `new`. -/
def diffNew : List Change → List Char
  | [] => []
  | Change.equal c :: ds => c :: diffNew ds
  | Change.delete _ :: ds => diffNew ds
  | Change.insert c :: ds => c :: diffNew ds

/-- Mirror of the loop body of `apply_diff_to_yrs`
(`src/client_folder/src/diff.rs:14`): walk the changes keeping a byte
cursor; `Equal` advances the cursor by the change's byte length, `Delete`
issues `remove_range(cursor, len)` without advancing, `Insert` issues
`insert(cursor, s)` and advances by the inserted byte length. -/
def applyChanges : List Char → Nat → List Change → Option (List Char)
  | content, _, [] => some content
  | content, cursor, Change.equal c :: ds => applyChanges content (cursor + csize c) ds
  | content, cursor, Change.delete c :: ds =>
    match removeRange content cursor (csize c) with
    | some content2 => applyChanges content2 cursor ds
    | none => none
  | content, cursor, Change.insert c :: ds =>
    match insertAt content cursor [c] with
    | some content2 => applyChanges content2 (cursor + csize c) ds
    | none => none

/-- Mirror of `apply_diff_to_yrs` (`src/client_folder/src/diff.rs:4`):
apply a character diff of `(old, new)` to a document whose `"content"` text
is `old`, starting with the cursor at byte 0. -/
def apply_diff_to_yrs (old : List Char) (d : List Change) : Option (List Char) :=
  applyChanges old 0 d

lemma utf8Len_nil : utf8Len [] = 0 := rfl

lemma utf8Len_cons (c : Char) (l : List Char) : utf8Len (c :: l) = csize c + utf8Len l := by
  simp [utf8Len]

lemma utf8Len_append (a b : List Char) : utf8Len (a ++ b) = utf8Len a + utf8Len b := by
  simp [utf8Len]

lemma csize_pos (c : Char) : 0 < csize c := Char.utf8Size_pos c

lemma insertAt_zero (content s : List Char) : insertAt content 0 s = some (s ++ content) := by
  rw [insertAt.eq_def]
  simp

lemma insertAt_nil_pos (k : Nat) (s : List Char) (h0 : k ≠ 0) : insertAt [] k s = none := by
  rw [insertAt.eq_def]
  simp [h0]

lemma insertAt_cons_le (c : Char) (rest : List Char) (k : Nat) (s : List Char)
    (h0 : k ≠ 0) (hle : csize c ≤ k) :
    insertAt (c :: rest) k s = (insertAt rest (k - csize c) s).map (fun l => c :: l) := by
  rw [insertAt.eq_def]
  simp [h0, hle]

lemma insertAt_cons_gt (c : Char) (rest : List Char) (k : Nat) (s : List Char)
    (h0 : k ≠ 0) (hgt : ¬ csize c ≤ k) : insertAt (c :: rest) k s = none := by
  rw [insertAt.eq_def]
  simp [h0, hgt]

lemma removePrefix_zero (content : List Char) : removePrefix content 0 = some content := by
  rw [removePrefix.eq_def]
  simp

lemma removePrefix_nil_pos (len : Nat) (h0 : len ≠ 0) : removePrefix [] len = none := by
  rw [removePrefix.eq_def]
  simp [h0]

lemma removePrefix_cons_le (c : Char) (rest : List Char) (len : Nat)
    (h0 : len ≠ 0) (hle : csize c ≤ len) :
    removePrefix (c :: rest) len = removePrefix rest (len - csize c) := by
  rw [removePrefix.eq_def]
  simp [h0, hle]

lemma removePrefix_cons_gt (c : Char) (rest : List Char) (len : Nat)
    (h0 : len ≠ 0) (hgt : ¬ csize c ≤ len) : removePrefix (c :: rest) len = none := by
  rw [removePrefix.eq_def]
  simp [h0, hgt]

lemma removeRange_zero (content : List Char) (len : Nat) :
    removeRange content 0 len = removePrefix content len := by
  rw [removeRange.eq_def]
  simp

lemma removeRange_nil_pos (k len : Nat) (h0 : k ≠ 0) : removeRange [] k len = none := by
  rw [removeRange.eq_def]
  simp [h0]

lemma removeRange_cons_le (c : Char) (rest : List Char) (k len : Nat)
    (h0 : k ≠ 0) (hle : csize c ≤ k) :
    removeRange (c :: rest) k len =
      (removeRange rest (k - csize c) len).map (fun l => c :: l) := by
  rw [removeRange.eq_def]
  simp [h0, hle]

lemma removeRange_cons_gt (c : Char) (rest : List Char) (k len : Nat)
    (h0 : k ≠ 0) (hgt : ¬ csize c ≤ k) : removeRange (c :: rest) k len = none := by
  rw [removeRange.eq_def]
  simp [h0, hgt]

lemma insertAt_boundary (s : List Char) :
    ∀ pre rest : List Char,
      insertAt (pre ++ rest) (utf8Len pre) s = some (pre ++ (s ++ rest)) := by
  intro pre
  induction pre with
  | nil =>
    intro rest
    simpa [utf8Len_nil] using insertAt_zero rest s
  | cons c pre ih =>
    intro rest
    have hc := csize_pos c
    have h0 : utf8Len (c :: pre) ≠ 0 := by
      rw [utf8Len_cons]; omega
    have hle : csize c ≤ utf8Len (c :: pre) := by
      rw [utf8Len_cons]; omega
    rw [List.cons_append, insertAt_cons_le c (pre ++ rest) (utf8Len (c :: pre)) s h0 hle]
    have hsub : utf8Len (c :: pre) - csize c = utf8Len pre := by
      rw [utf8Len_cons]; omega
    rw [hsub, ih rest]
    rfl

lemma removePrefix_boundary (mid : List Char) :
    ∀ rest : List Char, removePrefix (mid ++ rest) (utf8Len mid) = some rest := by
  induction mid with
  | nil =>
    intro rest
    simpa [utf8Len_nil] using removePrefix_zero rest
  | cons c mid ih =>
    intro rest
    have hc := csize_pos c
    have h0 : utf8Len (c :: mid) ≠ 0 := by
      rw [utf8Len_cons]; omega
    have hle : csize c ≤ utf8Len (c :: mid) := by
      rw [utf8Len_cons]; omega
    rw [List.cons_append, removePrefix_cons_le c (mid ++ rest) (utf8Len (c :: mid)) h0 hle]
    have hsub : utf8Len (c :: mid) - csize c = utf8Len mid := by
      rw [utf8Len_cons]; omega
    rw [hsub, ih rest]

lemma removeRange_boundary (len : Nat) :
    ∀ pre mid rest : List Char, utf8Len mid = len →
      removeRange (pre ++ (mid ++ rest)) (utf8Len pre) len = some (pre ++ rest) := by
  intro pre
  induction pre with
  | nil =>
    intro mid rest hmid
    rw [utf8Len_nil, List.nil_append, removeRange_zero, ← hmid,
      removePrefix_boundary mid rest]
    simp
  | cons c pre ih =>
    intro mid rest hmid
    have hc := csize_pos c
    have h0 : utf8Len (c :: pre) ≠ 0 := by
      rw [utf8Len_cons]; omega
    have hle : csize c ≤ utf8Len (c :: pre) := by
      rw [utf8Len_cons]; omega
    rw [List.cons_append, removeRange_cons_le c (pre ++ (mid ++ rest))
      (utf8Len (c :: pre)) len h0 hle]
    have hsub : utf8Len (c :: pre) - csize c = utf8Len pre := by
      rw [utf8Len_cons]; omega
    rw [hsub, ih mid rest hmid]
    rfl

lemma applyChanges_valid (d : List Change) :
    ∀ pre : List Char,
      applyChanges (pre ++ diffOld d) (utf8Len pre) d = some (pre ++ diffNew d) := by
  induction d with
  | nil => intro pre; simp [applyChanges, diffOld, diffNew]
  | cons ch ds ih =>
    intro pre
    match ch with
    | Change.equal c =>
      simp only [diffOld, diffNew, applyChanges]
      have h1 : pre ++ c :: diffOld ds = (pre ++ [c]) ++ diffOld ds := by simp
      have h2 : utf8Len pre + csize c = utf8Len (pre ++ [c]) := by
        rw [utf8Len_append, utf8Len_cons, utf8Len_nil]
        omega
      rw [h1, h2, ih (pre ++ [c])]
      simp
    | Change.delete c =>
      simp only [diffOld, diffNew, applyChanges]
      have h1 : pre ++ c :: diffOld ds = pre ++ ([c] ++ diffOld ds) := by simp
      rw [h1, removeRange_boundary (csize c) pre [c] (diffOld ds)
        (by rw [utf8Len_cons, utf8Len_nil]; omega)]
      exact ih pre
    | Change.insert c =>
      simp only [diffOld, diffNew, applyChanges]
      rw [insertAt_boundary [c] pre (diffOld ds)]
      show applyChanges (pre ++ ([c] ++ diffOld ds)) (utf8Len pre + csize c) ds =
        some (pre ++ c :: diffNew ds)
      have h1 : pre ++ ([c] ++ diffOld ds) = (pre ++ [c]) ++ diffOld ds := by simp
      have h2 : utf8Len pre + csize c = utf8Len (pre ++ [c]) := by
        rw [utf8Len_append, utf8Len_cons, utf8Len_nil]
        omega
      rw [h1, h2, ih (pre ++ [c])]
      simp

/-- Success of `insertAt` forces the byte cursor to lie within the current
content length — the model never splices beyond the end. -/
lemma insertAt_cursor_in_bounds :
    ∀ (content : List Char) (k : Nat) (s r : List Char),
      insertAt content k s = some r → k ≤ utf8Len content := by
  intro content
  induction content with
  | nil =>
    intro k s r h
    by_cases hk : k = 0
    · omega
    · rw [insertAt_nil_pos k s hk] at h
      exact absurd h (by simp)
  | cons c rest ih =>
    intro k s r h
    by_cases hk : k = 0
    · subst hk; simp
    · by_cases hle : csize c ≤ k
      · rw [insertAt_cons_le c rest k s hk hle] at h
        rcases Option.map_eq_some'.mp h with ⟨r2, hr2, _⟩
        have := ih (k - csize c) s r2 hr2
        rw [utf8Len_cons]
        omega
      · rw [insertAt_cons_gt c rest k s hk hle] at h
        exact absurd h (by simp)

/-- Success of `removePrefix` forces the removed span to lie within the
content. -/
lemma removePrefix_in_bounds :
    ∀ (content : List Char) (len : Nat) (r : List Char),
      removePrefix content len = some r → len ≤ utf8Len content := by
  intro content
  induction content with
  | nil =>
    intro len r h
    by_cases hl : len = 0
    · omega
    · rw [removePrefix_nil_pos len hl] at h
      exact absurd h (by simp)
  | cons c rest ih =>
    intro len r h
    by_cases hl : len = 0
    · subst hl; simp
    · by_cases hle : csize c ≤ len
      · rw [removePrefix_cons_le c rest len hl hle] at h
        have := ih (len - csize c) r h
        rw [utf8Len_cons]
        omega
      · rw [removePrefix_cons_gt c rest len hl hle] at h
        exact absurd h (by simp)

/-- Success of `removeRange` forces cursor plus removed length to lie within
the current content length. -/
lemma removeRange_in_bounds :
    ∀ (content : List Char) (k len : Nat) (r : List Char),
      removeRange content k len = some r → k + len ≤ utf8Len content := by
  intro content
  induction content with
  | nil =>
    intro k len r h
    by_cases hk : k = 0
    · subst hk
      rw [removeRange_zero] at h
      have := removePrefix_in_bounds [] len r h
      omega
    · rw [removeRange_nil_pos k len hk] at h
      exact absurd h (by simp)
  | cons c rest ih =>
    intro k len r h
    by_cases hk : k = 0
    · subst hk
      rw [removeRange_zero] at h
      have := removePrefix_in_bounds (c :: rest) len r h
      omega
    · by_cases hle : csize c ≤ k
      · rw [removeRange_cons_le c rest k len hk hle] at h
        rcases Option.map_eq_some'.mp h with ⟨r2, hr2, _⟩
        have := ih (k - csize c) len r2 hr2
        rw [utf8Len_cons]
        omega
      · rw [removeRange_cons_gt c rest k len hk hle] at h
        exact absurd h (by simp)

/-- C1: applying any character diff of `(old, new)` — any change sequence
whose `Equal`/`Delete` characters spell `old` and whose `Equal`/`Insert`
characters spell `new`, which is what `TextDiff::from_chars(old, new)`
produces — to a document whose `"content"` text is `old` succeeds and
leaves the text equal to `new`.  Success (`some`) means no operation
panicked: by construction of `insertAt`/`removeRange` (and by
`insertAt_cursor_in_bounds`/`removeRange_in_bounds`), every intermediate
`remove_range`/`insert` used a byte cursor on a character boundary within
the current content length, including for multi-byte inputs such as the
`"🚀a" → "🚀b"` regression. -/
theorem apply_diff_to_yrs_correct (old new : List Char) (d : List Change)
    (hOld : diffOld d = old) (hNew : diffNew d = new) :
    apply_diff_to_yrs old d = some new := by
  subst hOld; subst hNew
  have h := applyChanges_valid d []
  simpa [apply_diff_to_yrs, utf8Len] using h

/-- Witness for C1 at the regression pair: `old = "🚀a"`, `new = "🚀b"`,
with the character diff `[Equal '🚀', Delete 'a', Insert 'b']`. -/
theorem apply_diff_to_yrs_correct_witness :
    (diffOld [Change.equal '🚀', Change.delete 'a', Change.insert 'b'] = ['🚀', 'a'] ∧
      diffNew [Change.equal '🚀', Change.delete 'a', Change.insert 'b'] = ['🚀', 'b']) ∧
    apply_diff_to_yrs ['🚀', 'a']
        [Change.equal '🚀', Change.delete 'a', Change.insert 'b'] = some ['🚀', 'b'] :=
  ⟨⟨rfl, rfl⟩,
    apply_diff_to_yrs_correct ['🚀', 'a'] ['🚀', 'b']
      [Change.equal '🚀', Change.delete 'a', Change.insert 'b'] rfl rfl⟩

/-! ## File registry: `src/client_folder/src/main.rs` (`FileRegistry`)

The `HashMap` of active handlers and the `HashSet` of pending claims are
embedded as finite sets of path strings (only the key sets matter for the
claim about double-claiming). -/

/-- Mirror of `FileRegistry` (`src/client_folder/src/main.rs:41`): the key
set of the `active` map and the `pending` set. -/
structure FileRegistry where
  active : Finset String
  pending : Finset String

/-- Mirror of `FileRegistry::new` (`src/client_folder/src/main.rs:47`). -/
def FileRegistry.new : FileRegistry :=
  { active := ∅, pending := ∅ }

/-- Mirror of `FileRegistry::try_claim` (`src/client_folder/src/main.rs:55`):
returns `false` and leaves the registry unchanged when the path is active or
pending, otherwise adds the path to `pending` and returns `true`. -/
def FileRegistry.try_claim (r : FileRegistry) (rel_path : String) : Bool × FileRegistry :=
  if rel_path ∈ r.active ∨ rel_path ∈ r.pending then (false, r)
  else (true, { r with pending := insert rel_path r.pending })

/-- Mirror of `FileRegistry::activate` (`src/client_folder/src/main.rs:64`):
removes the path from `pending` and inserts it into `active`. -/
def FileRegistry.activate (r : FileRegistry) (rel_path : String) : FileRegistry :=
  { active := insert rel_path r.active, pending := r.pending.erase rel_path }

/-- Mirror of `FileRegistry::unclaim` (`src/client_folder/src/main.rs:69`):
removes the path from `pending`. -/
def FileRegistry.unclaim (r : FileRegistry) (rel_path : String) : FileRegistry :=
  { r with pending := r.pending.erase rel_path }

/-- One registry operation, as issued by the watcher, index observer and
sync-startup code paths. -/
inductive RegOp : Type
  | claim (rel_path : String) : RegOp
  | activate (rel_path : String) : RegOp
  | unclaim (rel_path : String) : RegOp

/-- Effect of one registry operation on the registry state (a `claim` is the
state effect of `try_claim`, whatever the returned boolean). -/
def RegOp.apply (r : FileRegistry) : RegOp → FileRegistry
  | RegOp.claim p => (r.try_claim p).2
  | RegOp.activate p => r.activate p
  | RegOp.unclaim p => r.unclaim p

/-- Registry reached from `FileRegistry::new` by a sequence of operations. -/
def runRegistry (ops : List RegOp) : FileRegistry :=
  ops.foldl RegOp.apply FileRegistry.new

lemma regOp_apply_disjoint (r : FileRegistry) (o : RegOp)
    (h : Disjoint r.active r.pending) : Disjoint (RegOp.apply r o).active (RegOp.apply r o).pending := by
  match o with
  | RegOp.claim p =>
    rw [RegOp.apply, FileRegistry.try_claim]
    split
    · exact h
    · rename_i hnot
      rw [Finset.disjoint_right]
      intro q hq
      rcases Finset.mem_insert.mp hq with hq1 | hq2
      · subst hq1
        intro hmem
        exact hnot (Or.inl hmem)
      · exact fun hmem => Finset.disjoint_right.mp h hq2 hmem
  | RegOp.activate p =>
    rw [RegOp.apply, FileRegistry.activate]
    rw [Finset.disjoint_left]
    intro q hq hq2
    rcases Finset.mem_insert.mp hq with hq1 | hq3
    · subst hq1
      exact Finset.not_mem_erase q r.pending hq2
    · exact Finset.disjoint_left.mp h hq3 (Finset.mem_of_mem_erase hq2)
  | RegOp.unclaim p =>
    rw [RegOp.apply, FileRegistry.unclaim]
    exact Finset.disjoint_of_subset_right (Finset.erase_subset p r.pending) h

lemma runRegistry_loop_disjoint :
    ∀ (ops : List RegOp) (r : FileRegistry), Disjoint r.active r.pending →
      Disjoint (ops.foldl RegOp.apply r).active (ops.foldl RegOp.apply r).pending := by
  intro ops
  induction ops with
  | nil => intro r h; exact h
  | cons o rest ih =>
    intro r h
    rw [List.foldl_cons]
    exact ih (RegOp.apply r o) (regOp_apply_disjoint r o h)

/-- C10: starting from `FileRegistry::new`, after any sequence of
`try_claim`/`activate`/`unclaim` operations no path is simultaneously in the
active map and the pending set; `try_claim p` returns `true` exactly when
`p` is in neither set, and in that case its only effect is to add `p` to
`pending` (on `false` the registry is unchanged) — so two concurrent
claimers of the same path can never both be told to proceed. -/
theorem fileRegistry_invariant (ops : List RegOp) (p : String) :
    Disjoint (runRegistry ops).active (runRegistry ops).pending ∧
      (((runRegistry ops).try_claim p).1 = true ↔
        p ∉ (runRegistry ops).active ∧ p ∉ (runRegistry ops).pending) ∧
      ((runRegistry ops).try_claim p).2 =
        (if ((runRegistry ops).try_claim p).1 = true then
          { active := (runRegistry ops).active,
            pending := insert p (runRegistry ops).pending }
        else runRegistry ops) := by
  refine ⟨?_, ?_, ?_⟩
  · exact runRegistry_loop_disjoint ops FileRegistry.new (by simp [FileRegistry.new])
  · rw [FileRegistry.try_claim]
    split
    · rename_i hmem
      simp only [Bool.false_eq_true, false_iff]
      tauto
    · rename_i hnot
      simp only [true_iff]
      tauto
  · rw [FileRegistry.try_claim]
    split
    · simp
    · simp

/-! ## The yrs boundary

The repository uses the external yrs CRDT library through a small surface:
`Doc::new` (a fresh document), `Update::decode_v1`, `apply_update` inside a
write transaction (whose possible failure the callers either propagate or
ignore), `encode_state_as_update_v1` against a state vector, and
`get_string` of the `"content"` text.  That surface is embedded as a record
of operations; spec §3 laws about it enter the theorems as explicit
hypotheses. -/

/-- Boundary model of the yrs operations the repository calls.  `Upd` is
the type of decoded updates, `Doc` of documents, `SV` of state vectors.
`applyUpdateTxn d u` is the document after a `transact_mut` that ran
`apply_update`, together with whether `apply_update` returned `Ok`. -/
structure YrsModel (Upd Doc SV : Type) where
  fresh : Doc
  decodeV1 : List Nat → Option Upd
  applyUpdateTxn : Doc → Upd → Doc × Bool
  encodeStateAsUpdate : Doc → SV → List Nat
  svEmpty : SV
  getString : Doc → List Char

/-- Replay step shared by `src/server/src/db.rs:76` and the client loaders:
decode the bytes and apply them when they decode, ignoring the result of
`apply_update`; skip them when they do not decode. -/
def applyBytes {Upd Doc SV : Type} (M : YrsModel Upd Doc SV) (d : Doc)
    (bs : List Nat) : Doc :=
  match M.decodeV1 bs with
  | some u => (M.applyUpdateTxn d u).1
  | none => d

/-! ## Update store: `src/server/src/db.rs` -/

/-- Mirror of `get_all_updates_since` (`src/server/src/db.rs:55`).  `stored`
is the row list `load_doc_updates` returns — the updates appended for the
doc id, in insertion order (`ORDER BY id ASC` over the autoincrement key).
When nothing is stored the function short-circuits to the empty byte
string; otherwise it replays every stored update into an ephemeral fresh
document and exports that document's state against `since_sv`. -/
def get_all_updates_since {Upd Doc SV : Type} (M : YrsModel Upd Doc SV)
    (stored : List (List Nat)) (since_sv : SV) : List Nat :=
  if stored.isEmpty then []
  else M.encodeStateAsUpdate (stored.foldl (applyBytes M) M.fresh) since_sv

/-- C3: `get_all_updates_since` is computed by replaying all stored updates
in insertion order into an ephemeral document and exporting against the
given state vector; it returns the empty byte string when nothing is stored
and, by the spec §3 boundary law `hCov` (an export against a state vector
that already covers the document contains nothing), also whenever the peer
at `sv` lacks nothing; and by the boundary law `hLaw` (a full-state export
against the empty state vector round-trips the text), applying the result
of `get_all_updates_since (s0 :: rest) svEmpty` to a fresh document yields
the same text as applying the stored sequence in order — also for the
empty store, where the empty result leaves a fresh document unchanged
(`hNil`: empty bytes do not decode). -/
theorem get_all_updates_since_spec {Upd Doc SV : Type} (M : YrsModel Upd Doc SV)
    (covers : SV → Doc → Prop) (s0 : List Nat) (rest : List (List Nat)) (sv : SV)
    (hLaw : ∀ d, M.getString (applyBytes M M.fresh (M.encodeStateAsUpdate d M.svEmpty)) =
      M.getString d)
    (hNil : M.decodeV1 [] = none)
    (hCov : ∀ d sv2, covers sv2 d → M.encodeStateAsUpdate d sv2 = [])
    (hc : covers sv ((s0 :: rest).foldl (applyBytes M) M.fresh)) :
    get_all_updates_since M [] sv = [] ∧
      get_all_updates_since M (s0 :: rest) sv =
        M.encodeStateAsUpdate ((s0 :: rest).foldl (applyBytes M) M.fresh) sv ∧
      get_all_updates_since M (s0 :: rest) sv = [] ∧
      M.getString (applyBytes M M.fresh (get_all_updates_since M [] M.svEmpty)) =
        M.getString (([] : List (List Nat)).foldl (applyBytes M) M.fresh) ∧
      M.getString (applyBytes M M.fresh (get_all_updates_since M (s0 :: rest) M.svEmpty)) =
        M.getString ((s0 :: rest).foldl (applyBytes M) M.fresh) := by
  have hget : get_all_updates_since M (s0 :: rest) sv =
      M.encodeStateAsUpdate ((s0 :: rest).foldl (applyBytes M) M.fresh) sv := by
    rw [get_all_updates_since]
    simp
  refine ⟨rfl, hget, ?_, ?_, ?_⟩
  · rw [hget, hCov _ _ hc]
  · show M.getString (applyBytes M M.fresh []) = M.getString M.fresh
    rw [applyBytes, hNil]
  · have hget2 : get_all_updates_since M (s0 :: rest) M.svEmpty =
        M.encodeStateAsUpdate ((s0 :: rest).foldl (applyBytes M) M.fresh) M.svEmpty := by
      rw [get_all_updates_since]
      simp
    rw [hget2, hLaw]

/-! ## Snapshot load: `src/client_folder/src/storage.rs` and
`src/client_folder/src/main.rs` -/

/-- Mirror of `load_doc` (`src/client_folder/src/storage.rs:24`): the read
bytes (`none` models a failed `fs::read`, e.g. a missing path) must decode
and apply cleanly; every failure — missing file, undecodable bytes, a
failed `apply_update` — is propagated as an error (`none`), not recovered
into a fresh document. -/
def load_doc {Upd Doc SV : Type} (M : YrsModel Upd Doc SV)
    (read_bytes : Option (List Nat)) : Option Doc :=
  match read_bytes with
  | none => none
  | some bytes =>
    match M.decodeV1 bytes with
    | none => none
    | some u =>
      let applied := M.applyUpdateTxn M.fresh u
      if applied.2 then some applied.1 else none

/-- Mirror of `load_or_create_doc` (`src/client_folder/src/main.rs:139`): a
fresh document is created first; when the snapshot bytes are present and
decode, they are applied to it (the result of `apply_update` is ignored);
on a missing or unreadable file or undecodable bytes the fresh document is
returned with a logged warning. -/
def load_or_create_doc {Upd Doc SV : Type} (M : YrsModel Upd Doc SV)
    (read_bytes : Option (List Nat)) : Doc :=
  match read_bytes with
  | none => M.fresh
  | some bytes =>
    match M.decodeV1 bytes with
    | none => M.fresh
    | some u => (M.applyUpdateTxn M.fresh u).1

/-- Toy instance of the yrs boundary, used to exhibit concrete behaviors:
a document is a finite set of naturals, an update is the list of naturals
it adds, update bytes are tagged with a leading 1 (anything else — in
particular the byte string `[255]` and the empty byte string — fails to
decode), a state vector is the set of naturals already seen, and a state
export against `sv` lists the missing elements (empty when nothing is
missing).  An update containing the element 0 makes `apply_update` report
failure, but the transaction has still merged the update's elements — so a
caller that ignores the result keeps the mutated, no-longer-fresh
document. -/
def toyYrs : YrsModel (List Nat) (Finset Nat) (Finset Nat) where
  fresh := ∅
  decodeV1 bs :=
    match bs with
    | 1 :: rest => some rest
    | _ => none
  applyUpdateTxn d u := (d ∪ u.toFinset, decide (0 ∉ u))
  encodeStateAsUpdate d sv :=
    if d \ sv = ∅ then [] else 1 :: (d \ sv).sort (· ≤ ·)
  svEmpty := ∅
  getString d := (d.sort (· ≤ ·)).map Char.ofNat

lemma toy_decode_encode (d : Finset Nat) :
    applyBytes toyYrs toyYrs.fresh (toyYrs.encodeStateAsUpdate d toyYrs.svEmpty) = d := by
  by_cases hd : d = ∅
  · subst hd
    rfl
  · have henc : toyYrs.encodeStateAsUpdate d toyYrs.svEmpty = 1 :: d.sort (· ≤ ·) := by
      show (if d \ ∅ = ∅ then [] else 1 :: (d \ ∅).sort (· ≤ ·)) = 1 :: d.sort (· ≤ ·)
      rw [Finset.sdiff_empty, if_neg hd]
    rw [henc]
    show (∅ ∪ (d.sort (· ≤ ·)).toFinset : Finset Nat) = d
    rw [Finset.empty_union, Finset.sort_toFinset]

lemma toy_hLaw (d : Finset Nat) :
    toyYrs.getString (applyBytes toyYrs toyYrs.fresh
      (toyYrs.encodeStateAsUpdate d toyYrs.svEmpty)) = toyYrs.getString d := by
  rw [toy_decode_encode]

lemma toy_hCov (d sv : Finset Nat) (h : d ⊆ sv) :
    toyYrs.encodeStateAsUpdate d sv = [] := by
  show (if d \ sv = ∅ then [] else 1 :: (d \ sv).sort (· ≤ ·)) = []
  rw [if_pos (Finset.sdiff_eq_empty_iff_subset.mpr h)]

/-- Witness for C3 on the toy boundary instance: two stored updates
`[1, 5]` and `[1, 7]` (adding 5 and 7), caught up from the empty state
vector, and a covering state vector `{5, 7}`. -/
theorem get_all_updates_since_spec_witness :
    (toyYrs.decodeV1 [] = none ∧
      ([[1, 5], [1, 7]] : List (List Nat)).foldl (applyBytes toyYrs) toyYrs.fresh ⊆
        ({5, 7} : Finset Nat)) ∧
    (get_all_updates_since toyYrs [] ({5, 7} : Finset Nat) = [] ∧
      get_all_updates_since toyYrs [[1, 5], [1, 7]] ({5, 7} : Finset Nat) =
        toyYrs.encodeStateAsUpdate
          (([[1, 5], [1, 7]] : List (List Nat)).foldl (applyBytes toyYrs) toyYrs.fresh)
          ({5, 7} : Finset Nat) ∧
      get_all_updates_since toyYrs [[1, 5], [1, 7]] ({5, 7} : Finset Nat) = [] ∧
      toyYrs.getString (applyBytes toyYrs toyYrs.fresh
          (get_all_updates_since toyYrs [] toyYrs.svEmpty)) =
        toyYrs.getString (([] : List (List Nat)).foldl (applyBytes toyYrs) toyYrs.fresh) ∧
      toyYrs.getString (applyBytes toyYrs toyYrs.fresh
          (get_all_updates_since toyYrs [[1, 5], [1, 7]] toyYrs.svEmpty)) =
        toyYrs.getString
          (([[1, 5], [1, 7]] : List (List Nat)).foldl (applyBytes toyYrs) toyYrs.fresh)) :=
  ⟨⟨rfl, by decide⟩,
    get_all_updates_since_spec toyYrs (fun sv d => d ⊆ sv) [1, 5] [[1, 7]]
      ({5, 7} : Finset Nat) toy_hLaw rfl toy_hCov (by decide)⟩

/-- C6 counterexample: the byte string `[255]` is present but does not
decode as an update, and `storage::load_doc`
(`src/client_folder/src/storage.rs:24`) then fails — it returns an error
(`none`), not a fresh document.  This refutes the claim that the snapshot
load operation returns a fresh document rather than failing on corrupt
bytes: only `load_or_create_doc` in `src/client_folder/src/main.rs` does
that. -/
theorem load_doc_fails_on_corrupt_bytes :
    toyYrs.decodeV1 [255] = none ∧
      load_doc toyYrs (some [255]) = none ∧
      load_doc toyYrs (some [255]) ≠ some toyYrs.fresh := by
  refine ⟨rfl, rfl, by simp [load_doc, toyYrs]⟩

/-- C6 (amended): for snapshot bytes that are absent or fail to decode,
`load_or_create_doc` (`src/client_folder/src/main.rs:139`) returns a fresh
document, while `storage::load_doc`
(`src/client_folder/src/storage.rs:24`) returns an error rather than a
fresh document (its callers recover at the call site); for bytes that
decode but whose `apply_update` fails, `load_or_create_doc` discards the
failure (`src/client_folder/src/main.rs:147` ignores the result) and
returns whatever document the transaction left — not necessarily a fresh
one — while `load_doc` again returns an error; only when the bytes are
present, decode, and apply cleanly do both return the document obtained by
applying the update to a fresh document. -/
theorem snapshot_load_behavior {Upd Doc SV : Type} (M : YrsModel Upd Doc SV)
    (corrupt ok bad : List Nat) (u v : Upd)
    (hcorrupt : M.decodeV1 corrupt = none)
    (hok : M.decodeV1 ok = some u)
    (happly : (M.applyUpdateTxn M.fresh u).2 = true)
    (hbad : M.decodeV1 bad = some v)
    (happlybad : (M.applyUpdateTxn M.fresh v).2 = false) :
    load_or_create_doc M none = M.fresh ∧
      load_doc M none = none ∧
      load_or_create_doc M (some corrupt) = M.fresh ∧
      load_doc M (some corrupt) = none ∧
      load_or_create_doc M (some bad) = (M.applyUpdateTxn M.fresh v).1 ∧
      load_doc M (some bad) = none ∧
      load_or_create_doc M (some ok) = (M.applyUpdateTxn M.fresh u).1 ∧
      load_doc M (some ok) = some (M.applyUpdateTxn M.fresh u).1 := by
  refine ⟨rfl, rfl, ?_, ?_, ?_, ?_, ?_, ?_⟩
  · rw [load_or_create_doc, hcorrupt]
  · rw [load_doc, hcorrupt]
  · rw [load_or_create_doc, hbad]
  · rw [load_doc, hbad]
    simp [happlybad]
  · rw [load_or_create_doc, hok]
  · rw [load_doc, hok]
    simp [happly]

/-- Witness for C6 on the toy boundary instance: `[255]` does not decode;
`[1, 5]` decodes to the update adding 5 and applies cleanly; `[1, 0]`
decodes to the update adding 0, whose apply fails while still mutating the
document — `load_or_create_doc` keeps that mutated document (which is not
the fresh one), `load_doc` errors. -/
theorem snapshot_load_behavior_witness :
    (toyYrs.decodeV1 [255] = none ∧ toyYrs.decodeV1 [1, 5] = some [5] ∧
      (toyYrs.applyUpdateTxn toyYrs.fresh [5]).2 = true ∧
      toyYrs.decodeV1 [1, 0] = some [0] ∧
      (toyYrs.applyUpdateTxn toyYrs.fresh [0]).2 = false ∧
      (toyYrs.applyUpdateTxn toyYrs.fresh [0]).1 ≠ toyYrs.fresh) ∧
    (load_or_create_doc toyYrs none = toyYrs.fresh ∧
      load_doc toyYrs none = none ∧
      load_or_create_doc toyYrs (some [255]) = toyYrs.fresh ∧
      load_doc toyYrs (some [255]) = none ∧
      load_or_create_doc toyYrs (some [1, 0]) = (toyYrs.applyUpdateTxn toyYrs.fresh [0]).1 ∧
      load_doc toyYrs (some [1, 0]) = none ∧
      load_or_create_doc toyYrs (some [1, 5]) = (toyYrs.applyUpdateTxn toyYrs.fresh [5]).1 ∧
      load_doc toyYrs (some [1, 5]) = some (toyYrs.applyUpdateTxn toyYrs.fresh [5]).1) :=
  ⟨⟨rfl, rfl, by decide, rfl, by decide, by decide⟩,
    snapshot_load_behavior toyYrs [255] [1, 5] [1, 0] [5] [0] rfl rfl (by decide) rfl
      (by decide)⟩

/-! ## Relay server forwarder and client observer:
`src/server/src/server.rs` and `src/client_folder/src/client.rs` -/

/-- Mirror of the per-connection forwarder task body
(`src/server/src/server.rs:101`): a `(payload, sender_id)` pair pulled from
the doc's broadcast receiver is skipped (`continue`) when `sender_id`
equals the forwarder's own `connection_id`, and otherwise enqueued outbound
as an encoded `MSG_UPDATE` frame. -/
def forwarderStep (connection_id : Nat) (doc_id : List Nat)
    (m : List Nat × Nat) : Option (List Nat) :=
  if m.2 = connection_id then none
  else some (encode_message 2 doc_id m.1)

/-- Frames the forwarder task enqueues over a sequence of received
broadcast messages. -/
def forwarderRun (connection_id : Nat) (doc_id : List Nat)
    (msgs : List (List Nat × Nat)) : List (List Nat) :=
  msgs.filterMap (forwarderStep connection_id doc_id)

/-- Client-side document state relevant to echo suppression: the document
and the per-document suppress flag
(`src/client_folder/src/client.rs:18`). -/
structure DocStateC (Doc : Type) where
  doc : Doc
  suppress : Bool

/-- Mirror of the observer registered by `Client::add_doc`
(`src/client_folder/src/client.rs:139`): when the suppress flag is set the
observer sends nothing; otherwise it encodes the event's update bytes as a
`MSG_UPDATE` frame onto the outbound channel. -/
def observerEmit (suppress : Bool) (doc_id : List Nat) (update : List Nat) : List (List Nat) :=
  if suppress then [] else [encode_message 2 doc_id update]

/-- One client-side event on a registered document: a local mutation whose
transaction produces the update bytes `u`, or an inbound
`SYNC_STEP_2`/`UPDATE` frame with payload `p` dispatched by the socket
loop. -/
inductive ClientEvent : Type
  | localEdit (u : List Nat) : ClientEvent
  | remote (p : List Nat) : ClientEvent

/-- Effect of one client event, following
`src/client_folder/src/client.rs:100`: a local edit fires the observer with
the current flag value; an inbound dispatch stores `true` into the flag,
decodes and applies the payload — the observer firing inside that apply
reads the flag already set — and stores `false` afterwards. -/
def clientStep {Upd Doc SV : Type} (M : YrsModel Upd Doc SV) (doc_id : List Nat)
    (st : DocStateC Doc) (e : ClientEvent) : DocStateC Doc × List (List Nat) :=
  match e with
  | ClientEvent.localEdit u =>
    ({ doc := applyBytes M st.doc u, suppress := st.suppress },
      observerEmit st.suppress doc_id u)
  | ClientEvent.remote p =>
    let flagged : DocStateC Doc := { doc := st.doc, suppress := true }
    let emitted := observerEmit flagged.suppress doc_id p
    ({ doc := applyBytes M flagged.doc p, suppress := false }, emitted)

/-- Run of the client over a sequence of events, collecting every frame the
observer puts on the outbound channel. -/
def clientRun {Upd Doc SV : Type} (M : YrsModel Upd Doc SV) (doc_id : List Nat)
    (st : DocStateC Doc) : List ClientEvent → DocStateC Doc × List (List Nat)
  | [] => (st, [])
  | e :: rest =>
    let step := clientStep M doc_id st e
    let next := clientRun M doc_id step.1 rest
    (next.1, step.2 ++ next.2)

lemma clientRun_suppress_false {Upd Doc SV : Type} (M : YrsModel Upd Doc SV)
    (doc_id : List Nat) :
    ∀ (events : List ClientEvent) (d : Doc),
      (clientRun M doc_id { doc := d, suppress := false } events).2 =
        events.filterMap (fun e =>
          match e with
          | ClientEvent.localEdit u => some (encode_message 2 doc_id u)
          | ClientEvent.remote _ => none) := by
  intro events
  induction events with
  | nil => intro d; rfl
  | cons e rest ih =>
    intro d
    match e with
    | ClientEvent.localEdit u =>
      show observerEmit false doc_id u ++ _ = _
      rw [observerEmit, if_neg (by simp)]
      have hstep : (clientStep M doc_id { doc := d, suppress := false }
          (ClientEvent.localEdit u)).1 = { doc := applyBytes M d u, suppress := false } := rfl
      rw [hstep, ih (applyBytes M d u)]
      rfl
    | ClientEvent.remote p =>
      show observerEmit true doc_id p ++ _ = _
      rw [observerEmit, if_pos rfl]
      have hstep : (clientStep M doc_id { doc := d, suppress := false }
          (ClientEvent.remote p)).1 = { doc := applyBytes M d p, suppress := false } := rfl
      rw [hstep, ih (applyBytes M d p)]
      rfl

/-- C4: echo suppression on both sides.  Server: the forwarder task for
connection `cid` never enqueues a broadcast message whose origin is `cid`
itself, and enqueues the encoded `UPDATE` frame exactly when the origin
differs.  Client: starting from an unsuppressed document, over any sequence
of local edits and inbound dispatches the observer emits exactly the local
edits' updates — a payload applied during an inbound dispatch (while the
suppress flag was set) is never re-sent. -/
theorem echo_suppression {Upd Doc SV : Type} (M : YrsModel Upd Doc SV)
    (cid sid : Nat) (doc_id payload : List Nat) (d : Doc)
    (events : List ClientEvent) (hs : sid ≠ cid) :
    forwarderStep cid doc_id (payload, cid) = none ∧
      forwarderStep cid doc_id (payload, sid) = some (encode_message 2 doc_id payload) ∧
      forwarderRun cid doc_id [(payload, cid), (payload, sid)] =
        [encode_message 2 doc_id payload] ∧
      (clientRun M doc_id { doc := d, suppress := false } events).2 =
        events.filterMap (fun e =>
          match e with
          | ClientEvent.localEdit u => some (encode_message 2 doc_id u)
          | ClientEvent.remote _ => none) := by
  have h1 : forwarderStep cid doc_id (payload, cid) = none := by
    rw [forwarderStep, if_pos rfl]
  have h2 : forwarderStep cid doc_id (payload, sid) = some (encode_message 2 doc_id payload) := by
    rw [forwarderStep, if_neg hs]
  refine ⟨h1, h2, ?_, clientRun_suppress_false M doc_id events d⟩
  rw [forwarderRun, List.filterMap_cons, h1, List.filterMap_cons, h2]
  rfl

/-- Witness for C4: connection 1 receives its own update (origin 1, not
forwarded) and an update from origin 2 (forwarded); the client applies a
remote payload `[9]` under suppression and makes one local edit `[4]`. -/
theorem echo_suppression_witness :
    (2 ≠ 1) ∧
    (forwarderStep 1 [100] ([9], 1) = none ∧
      forwarderStep 1 [100] ([9], 2) = some (encode_message 2 [100] [9]) ∧
      forwarderRun 1 [100] [([9], 1), ([9], 2)] = [encode_message 2 [100] [9]] ∧
      (clientRun toyYrs [100] { doc := (∅ : Finset Nat), suppress := false }
          [ClientEvent.remote [9], ClientEvent.localEdit [4]]).2 =
        [ClientEvent.remote [9], ClientEvent.localEdit [4]].filterMap (fun e =>
          match e with
          | ClientEvent.localEdit u => some (encode_message 2 [100] u)
          | ClientEvent.remote _ => none)) :=
  ⟨by decide,
    echo_suppression toyYrs 1 2 [100] [9] (∅ : Finset Nat)
      [ClientEvent.remote [9], ClientEvent.localEdit [4]] (by decide)⟩

/-! ## Relay server UPDATE handling: `src/server/src/server.rs:148` -/

/-- Observable effects of the `MSG_UPDATE` branch of `handle_socket`. -/
structure UpdateEffects where
  db_appends : List (List Nat)
  logged_errors : List String
  published : List (List Nat × Nat)

/-- Mirror of the `MSG_UPDATE` branch (`src/server/src/server.rs:148`):
`save_update` is spawned exactly once on a background task whose outcome is
`save_result`; a failed append only logs `"DB Save Error"` and is not
retried; and the `(payload, connection_id)` pair is published to the doc's
broadcast channel unconditionally — the publish does not depend on (and
does not wait for) the append's outcome. -/
def handle_update (connection_id : Nat) (payload : List Nat)
    (save_result : Except String Unit) : UpdateEffects where
  db_appends := [payload]
  logged_errors :=
    match save_result with
    | Except.error e => [String.append "DB Save Error: " e]
    | Except.ok _ => []
  published := [(payload, connection_id)]

/-- C5 counterexample: with a failing durable append (`save_update` returns
an error), the incoming update is still published to the document's
broadcast channel — the claim that a failed append prevents the broadcast
is false of the code, which publishes unconditionally while the append runs
on a background task. -/
theorem update_published_despite_failed_append :
    (handle_update 7 [1, 2, 3] (Except.error "disk full")).logged_errors =
        ["DB Save Error: disk full"] ∧
      (handle_update 7 [1, 2, 3] (Except.error "disk full")).published = [([1, 2, 3], 7)] ∧
      (handle_update 7 [1, 2, 3] (Except.error "disk full")).published ≠ [] := by
  refine ⟨rfl, rfl, by simp [handle_update]⟩

/-- C5 (amended): the durable append is attempted exactly once (no retry),
a failed append is only logged, and the update is published to the doc's
broadcast channel unconditionally — on success and on failure alike, since
the append runs on a background task and the publish does not consult its
outcome. -/
theorem handle_update_effects (connection_id : Nat) (payload : List Nat)
    (save_result : Except String Unit) :
    (handle_update connection_id payload save_result).published =
        [(payload, connection_id)] ∧
      (handle_update connection_id payload save_result).db_appends = [payload] ∧
      (handle_update connection_id payload save_result).logged_errors =
        (match save_result with
          | Except.error e => [String.append "DB Save Error: " e]
          | Except.ok _ => []) :=
  ⟨rfl, rfl, rfl⟩

/-! ## Startup bootstrap scan: `src/client_folder/src/state.rs` -/

/-- Environment outcomes for one candidate file (already a regular `.md` or
`.txt` file surviving the walk filters) reached by the loop body of
`bootstrap_offline_changes` (`src/client_folder/src/state.rs:63`):
whether `get_doc_id` succeeds, what `fs::read_to_string` returns, whether
the `.syncline` state file exists, what `load_doc` on it yields (the loaded
snapshot's text; `none` models corrupted state), and whether `save_doc`
succeeds. -/
structure ScanEntry where
  doc_id_result : Option String
  read_result : Option String
  state_present : Bool
  load_result : Option String
  save_ok : Bool

/-- One iteration of the scan loop: every failure path is a `continue`
(result `none`); the doc id is pushed onto the modified list (`some`) only
when an offline edit or a new file was found and its snapshot saved. -/
def process_entry (e : ScanEntry) : Option String :=
  match e.doc_id_result with
  | none => none
  | some doc_id =>
    match e.read_result with
    | none => none
    | some disk_content =>
      if e.state_present then
        match e.load_result with
        | none => none
        | some yjs_content =>
          if disk_content ≠ yjs_content then
            if e.save_ok then some doc_id else none
          else none
      else
        if e.save_ok then some doc_id else none

/-- The scan loop over the walked entries, accumulating `modified_docs` in
encounter order by `continue`-ing past every per-file failure. -/
def bootstrap_loop : List ScanEntry → List String
  | [] => []
  | e :: rest =>
    match process_entry e with
    | some doc_id => doc_id :: bootstrap_loop rest
    | none => bootstrap_loop rest

/-- Mirror of `bootstrap_offline_changes`
(`src/client_folder/src/state.rs:50`): the loop body contains no `?`
operator — all fallible per-file steps recover with `continue` — so the
function always returns `Ok(modified_docs)`. -/
def bootstrap_offline_changes (entries : List ScanEntry) : Except String (List String) :=
  Except.ok (bootstrap_loop entries)

lemma bootstrap_loop_append (xs ys : List ScanEntry) :
    bootstrap_loop (xs ++ ys) = bootstrap_loop xs ++ bootstrap_loop ys := by
  induction xs with
  | nil => rfl
  | cons e rest ih =>
    rw [List.cons_append, bootstrap_loop, bootstrap_loop]
    match process_entry e with
    | some doc_id => rw [ih]; rfl
    | none => rw [ih]

lemma process_entry_fails (A : ScanEntry)
    (hA : A.save_ok = false ∨ (A.state_present = true ∧ A.load_result = none)) :
    process_entry A = none := by
  obtain ⟨docRes, readRes, statePresent, loadRes, saveOk⟩ := A
  simp only at hA
  rcases docRes with _ | doc_id
  · rfl
  rcases readRes with _ | disk
  · rfl
  rcases hA with hsave | ⟨hstate, hload⟩
  · subst hsave
    cases statePresent
    · simp [process_entry]
    · rcases loadRes with _ | yjs
      · rfl
      · simp [process_entry]
  · subst hstate
    subst hload
    rfl

/-- C8: the bootstrap scan never returns an error because one file failed:
for any walk order containing a failing entry `A` (its snapshot save fails,
or its stored state is present but corrupt) and a successfully processed
entry `B` after it, the scan still returns `Ok` and the modified list still
contains `B`'s doc id (while `A` contributes nothing). -/
theorem bootstrap_survives_per_file_failure
    (pre mid post : List ScanEntry) (A B : ScanEntry) (idB : String)
    (hA : A.save_ok = false ∨ (A.state_present = true ∧ A.load_result = none))
    (hB : process_entry B = some idB) :
    bootstrap_offline_changes (pre ++ A :: (mid ++ B :: post)) =
        Except.ok (bootstrap_loop (pre ++ A :: (mid ++ B :: post))) ∧
      idB ∈ bootstrap_loop (pre ++ A :: (mid ++ B :: post)) ∧
      process_entry A = none := by
  have hAn := process_entry_fails A hA
  refine ⟨rfl, ?_, hAn⟩
  rw [bootstrap_loop_append, bootstrap_loop, hAn, bootstrap_loop_append, bootstrap_loop, hB]
  simp

/-- Failing scan entry used by the C8 witness: the stored state is present
but corrupt (its load fails). -/
def entryA : ScanEntry :=
  { doc_id_result := some "a.md", read_result := some "x", state_present := true,
    load_result := none, save_ok := true }

/-- Healthy scan entry used by the C8 witness: a new offline file whose
snapshot save succeeds. -/
def entryB : ScanEntry :=
  { doc_id_result := some "b.md", read_result := some "y", state_present := false,
    load_result := none, save_ok := true }

/-- Witness for C8: the scan over `[entryA, entryB]` still processes
`entryB` and returns `Ok` although `entryA` fails. -/
theorem bootstrap_survives_per_file_failure_witness :
    ((entryA.save_ok = false ∨ (entryA.state_present = true ∧ entryA.load_result = none)) ∧
      process_entry entryB = some "b.md") ∧
    (bootstrap_offline_changes ([] ++ entryA :: ([] ++ entryB :: [])) =
        Except.ok (bootstrap_loop ([] ++ entryA :: ([] ++ entryB :: []))) ∧
      "b.md" ∈ bootstrap_loop ([] ++ entryA :: ([] ++ entryB :: [])) ∧
      process_entry entryA = none) :=
  ⟨⟨Or.inr ⟨rfl, rfl⟩, rfl⟩,
    bootstrap_survives_per_file_failure [] [] [] entryA entryB "b.md"
      (Or.inr ⟨rfl, rfl⟩) rfl⟩
